import Mathlib

/-!
Shallow embedding of the funding-rate trading bot implemented in
`src/funding_rate_fetch.py`, together with theorems checking the
natural-language specification against it.

Conventions of the embedding:
* money, prices, rates and durations are rationals (`ℚ`);
* a UTC instant is given as seconds since the UTC midnight of the current
  day (the Python code only ever inspects the hour of day and differences
  of instants inside one day, so this is faithful);
* gateway calls that can raise are modelled by `Option`: `none` is the
  exception path of the corresponding `try`/`except` block;
* Telegram messages carry no state; only the reasons and alerts they
  report are modelled, as inductive values.
-/

namespace FundingBot

/-- Round to the nearest integer, ties to even — the behaviour of the Python
built-in `round` on the rational values arising in this development. -/
def pyRound (x : ℚ) : ℤ :=
  if Int.fract x = 1 / 2 then
    (if ⌊x⌋ % 2 = 0 then ⌊x⌋ else ⌊x⌋ + 1)
  else round x

/-- The Python call round(x, p): round to `p` decimal places. -/
def pyRoundTo (x : ℚ) (p : ℕ) : ℚ :=
  (pyRound (x * 10 ^ p) : ℚ) / 10 ^ p

/-- `pyRound` of an integer is that integer. -/
theorem pyRound_intCast (k : ℤ) : pyRound (k : ℚ) = k := by
  unfold pyRound
  rw [Int.fract_intCast]
  simp

/-- The hour component (`now_utc.hour`) of a UTC instant given as seconds
since UTC midnight. -/
def utcHour (s : ℚ) : ℕ := (⌊s / 3600⌋).toNat

/-- The `next_hour` computation of `seconds_to_next_funding`
(`funding_rate_fetch.py` lines 130–133): the next multiple of the funding
interval after the current hour; any interval other than 4 is treated as 8,
exactly as the `if interval == 4 ... else ...` in the source. -/
def next_funding_hour (interval : ℕ) (h : ℕ) : ℕ :=
  if interval = 4 then (h / 4 + 1) * 4 else (h / 8 + 1) * 8

/-- The `next_funding_time` of `seconds_to_next_funding` (lines 135–138), in
seconds since UTC midnight: when `next_hour >= 24` the code rolls over to the
the next midnight, i.e. second 86400 of the current day. -/
def next_funding_time_sec (interval : ℕ) (s : ℚ) : ℚ :=
  if 24 ≤ next_funding_hour interval (utcHour s) then 86400
  else (next_funding_hour interval (utcHour s) : ℚ) * 3600

/-- `seconds_to_next_funding` (lines 127–140), the current UTC instant being
given as seconds since UTC midnight. -/
def seconds_to_next_funding (interval : ℕ) (s : ℚ) : ℚ :=
  next_funding_time_sec interval s - s

theorem utcHour_mul_le (s : ℚ) (h0 : 0 ≤ s) : (utcHour s : ℚ) * 3600 ≤ s := by
  unfold utcHour
  have hf : (0 : ℤ) ≤ ⌊s / 3600⌋ := Int.floor_nonneg.mpr (by positivity)
  have hcast : ((⌊s / 3600⌋.toNat : ℤ) : ℚ) = ((⌊s / 3600⌋ : ℤ) : ℚ) := by
    exact_mod_cast congrArg (fun z => ((z : ℤ) : ℚ)) (Int.toNat_of_nonneg hf)
  have hle : ((⌊s / 3600⌋ : ℤ) : ℚ) ≤ s / 3600 := Int.floor_le _
  have : ((⌊s / 3600⌋.toNat : ℕ) : ℚ) ≤ s / 3600 := by
    rw [show ((⌊s / 3600⌋.toNat : ℕ) : ℚ) = ((⌊s / 3600⌋.toNat : ℤ) : ℚ) by push_cast; ring]
    rw [hcast]; exact hle
  nlinarith [this]

theorem lt_utcHour_succ_mul (s : ℚ) (h0 : 0 ≤ s) :
    s < ((utcHour s : ℚ) + 1) * 3600 := by
  unfold utcHour
  have hf : (0 : ℤ) ≤ ⌊s / 3600⌋ := Int.floor_nonneg.mpr (by positivity)
  have hcast : ((⌊s / 3600⌋.toNat : ℤ) : ℚ) = ((⌊s / 3600⌋ : ℤ) : ℚ) := by
    exact_mod_cast congrArg (fun z => ((z : ℤ) : ℚ)) (Int.toNat_of_nonneg hf)
  have hlt : s / 3600 < ((⌊s / 3600⌋ : ℤ) : ℚ) + 1 := Int.lt_floor_add_one _
  have : s / 3600 < ((⌊s / 3600⌋.toNat : ℕ) : ℚ) + 1 := by
    rw [show ((⌊s / 3600⌋.toNat : ℕ) : ℚ) = ((⌊s / 3600⌋.toNat : ℤ) : ℚ) by push_cast; ring]
    rw [hcast]; exact hlt
  nlinarith [this]

theorem utcHour_lt_24 (s : ℚ) (h1 : s < 86400) : utcHour s < 24 := by
  unfold utcHour
  have hlt : ⌊s / 3600⌋ < 24 := by
    apply Int.floor_lt.mpr
    push_cast
    rw [div_lt_iff₀ (by norm_num : (0:ℚ) < 3600)]
    linarith
  omega

theorem lt_next_funding_hour (i h : ℕ) : h < next_funding_hour i h := by
  unfold next_funding_hour
  split
  · have h4 := Nat.div_add_mod h 4
    have m4 : h % 4 < 4 := Nat.mod_lt _ (by norm_num)
    omega
  · have h8 := Nat.div_add_mod h 8
    have m8 : h % 8 < 8 := Nat.mod_lt _ (by norm_num)
    omega

theorem next_funding_hour_le (i h : ℕ) (hi : i = 4 ∨ i = 8) :
    next_funding_hour i h ≤ h + i := by
  rcases hi with hi | hi <;> subst hi <;> unfold next_funding_hour <;> simp
  · have := Nat.div_mul_le_self h 4
    omega
  · have := Nat.div_mul_le_self h 8
    omega

theorem next_funding_hour_le_24 (i h : ℕ) (hh : h < 24) :
    next_funding_hour i h ≤ 24 := by
  unfold next_funding_hour
  split
  · have : h / 4 ≤ 23 / 4 := Nat.div_le_div_right (by omega)
    omega
  · have : h / 8 ≤ 23 / 8 := Nat.div_le_div_right (by omega)
    omega

/-- C7: for every UTC instant of the day and interval 4 or 8,
`seconds_to_next_funding` lies in `(0, interval*3600]`, and within one
settlement period (same next funding instant) it strictly decreases as the
instant advances. -/
theorem seconds_to_next_funding_range_mono (i : ℕ) (hi : i = 4 ∨ i = 8)
    (t1 : ℚ) (h0 : 0 ≤ t1) (h1 : t1 < 86400) :
    (0 < seconds_to_next_funding i t1 ∧
      seconds_to_next_funding i t1 ≤ (i : ℚ) * 3600) ∧
    (∀ t2, t1 < t2 → t2 < 86400 →
      next_funding_time_sec i t2 = next_funding_time_sec i t1 →
      seconds_to_next_funding i t2 < seconds_to_next_funding i t1) := by
  constructor
  · have hhle : (utcHour t1 : ℚ) * 3600 ≤ t1 := utcHour_mul_le t1 h0
    have hhlt : t1 < ((utcHour t1 : ℚ) + 1) * 3600 := lt_utcHour_succ_mul t1 h0
    have hnh_gt : utcHour t1 < next_funding_hour i (utcHour t1) :=
      lt_next_funding_hour i (utcHour t1)
    have hnh_le : next_funding_hour i (utcHour t1) ≤ utcHour t1 + i :=
      next_funding_hour_le i (utcHour t1) hi
    unfold seconds_to_next_funding next_funding_time_sec
    split
    · rename_i h24
      have h24q : (24 : ℚ) ≤ (utcHour t1 : ℚ) + (i : ℚ) := by
        have : 24 ≤ utcHour t1 + i := le_trans h24 hnh_le
        exact_mod_cast this
      constructor
      · linarith
      · nlinarith
    · rename_i h24
      have hgt : ((utcHour t1 : ℚ) + 1) ≤ (next_funding_hour i (utcHour t1) : ℚ) := by
        exact_mod_cast hnh_gt
      have hleq : (next_funding_hour i (utcHour t1) : ℚ) ≤ (utcHour t1 : ℚ) + (i : ℚ) := by
        exact_mod_cast hnh_le
      constructor
      · nlinarith
      · nlinarith
  · intro t2 hlt _ heq
    unfold seconds_to_next_funding
    rw [heq]
    linarith

/-- Concrete check of `seconds_to_next_funding_range_mono` at 07:30 UTC with
an 8-hour interval: 1800 seconds remain, within `(0, 28800]`, and one minute
later only 1740 seconds remain. -/
theorem seconds_to_next_funding_range_mono_check :
    (0 < seconds_to_next_funding 8 27000 ∧
      seconds_to_next_funding 8 27000 ≤ (8 : ℚ) * 3600) ∧
    seconds_to_next_funding 8 27060 < seconds_to_next_funding 8 27000 := by
  have h := seconds_to_next_funding_range_mono 8 (Or.inr rfl) 27000 (by norm_num)
    (by norm_num)
  have e1 : utcHour 27060 = 7 := by
    unfold utcHour
    norm_num
    decide
  have e2 : utcHour 27000 = 7 := by
    unfold utcHour
    norm_num
    decide
  have heq : next_funding_time_sec 8 27060 = next_funding_time_sec 8 27000 := by
    unfold next_funding_time_sec
    rw [e1, e2]
  exact ⟨h.1, h.2 27060 (by norm_num) (by norm_num) heq⟩

/-- An eligible candidate as handed to the selector: a symbol (numbered), its
predicted funding rate and its detected funding interval in hours. -/
structure Coin where
  sym : ℕ
  rate : ℚ
  interval : ℕ
deriving DecidableEq, Repr

/-- The Python builtin min over `x :: xs` under a key function: the first
element attaining the least key, folded left to right exactly as CPython
does. -/
def pyMin {α : Type} (key : α → ℚ) (x : α) (xs : List α) : α :=
  xs.foldl (fun b a => if key a < key b then a else b) x

theorem pyMin_eq_or_mem {α : Type} (key : α → ℚ) (x : α) (xs : List α) :
    pyMin key x xs = x ∨ pyMin key x xs ∈ xs := by
  induction xs generalizing x with
  | nil => exact Or.inl rfl
  | cons a l ih =>
    have hstep : pyMin key x (a :: l) = pyMin key (if key a < key x then a else x) l := rfl
    rw [hstep]
    rcases ih (if key a < key x then a else x) with h | h
    · rw [h]
      split
      · exact Or.inr (List.mem_cons_self a l)
      · exact Or.inl rfl
    · exact Or.inr (List.mem_cons_of_mem a h)

theorem pyMin_le {α : Type} (key : α → ℚ) (x : α) (xs : List α) :
    key (pyMin key x xs) ≤ key x ∧ ∀ a ∈ xs, key (pyMin key x xs) ≤ key a := by
  induction xs generalizing x with
  | nil => exact ⟨le_refl _, by intro a ha; cases ha⟩
  | cons a l ih =>
    have hstep : pyMin key x (a :: l) = pyMin key (if key a < key x then a else x) l := rfl
    obtain ⟨ih1, ih2⟩ := ih (if key a < key x then a else x)
    have hx : key (if key a < key x then a else x) ≤ key x := by
      split
      · rename_i hl
        exact le_of_lt hl
      · exact le_refl _
    have ha : key (if key a < key x then a else x) ≤ key a := by
      split
      · exact le_refl _
      · rename_i hl
        exact le_of_not_lt hl
    refine ⟨by rw [hstep]; exact le_trans ih1 hx, ?_⟩
    intro b hb
    rw [hstep]
    rcases List.mem_cons.mp hb with hb | hb
    · subst hb
      exact le_trans ih1 ha
    · exact ih2 b hb

/-- The `coins_with_time` list built by `find_nearest_funding_coin`
(`funding_rate_fetch.py` lines 164–167): each eligible coin paired with its
`seconds_to_next_funding`. -/
def coins_with_time (now : ℚ) (eligible : List Coin) : List (Coin × ℚ) :=
  eligible.map (fun c => (c, seconds_to_next_funding c.interval now))

/-- The `min_time` of `find_nearest_funding_coin` (line 170). -/
def min_funding_time (now : ℚ) (eligible : List Coin) : ℚ :=
  match coins_with_time now eligible with
  | [] => 0
  | x :: xs => (pyMin (fun p => p.2) x xs).2

/-- The `nearest_coins` filter of `find_nearest_funding_coin` (lines
173–177): coins within 3 seconds of the minimum funding time. -/
def nearest_coins (now : ℚ) (eligible : List Coin) : List (Coin × ℚ) :=
  (coins_with_time now eligible).filter
    (fun p => decide (|p.2 - min_funding_time now eligible| ≤ 3))

/-- `find_nearest_funding_coin` (lines 159–185): `none` for an empty map;
otherwise, if several coins are within 3 seconds of the minimum time, the
one with the most negative rate among them, else the single nearest coin. -/
def find_nearest_funding_coin (now : ℚ) (eligible : List Coin) :
    Option (Coin × ℚ) :=
  match nearest_coins now eligible with
  | [] => none
  | y :: ys => if 0 < ys.length then some (pyMin (fun p => p.1.rate) y ys) else some y

theorem nearest_coins_sub (now : ℚ) (eligible : List Coin) (p : Coin × ℚ)
    (hp : p ∈ nearest_coins now eligible) : p ∈ coins_with_time now eligible := by
  exact (List.mem_filter.mp hp).1

/-- C6: on a non-empty candidate list the selector returns an element of the
within-3-seconds band around the minimal funding time; the returned minimal
time really is minimal; when the band holds exactly one candidate the result
attains the minimal funding time, and when it holds two or more the result
has the least (most negative) rate among them. -/
theorem find_nearest_funding_coin_spec (now : ℚ) (eligible : List Coin)
    (hne : eligible ≠ []) :
    ∃ r, find_nearest_funding_coin now eligible = some r ∧
      r ∈ nearest_coins now eligible ∧
      (∀ p ∈ coins_with_time now eligible, min_funding_time now eligible ≤ p.2) ∧
      ((nearest_coins now eligible).length = 1 →
        r.2 = min_funding_time now eligible) ∧
      (1 < (nearest_coins now eligible).length →
        ∀ p ∈ nearest_coins now eligible, r.1.rate ≤ p.1.rate) := by
  obtain ⟨c, cs, hcw⟩ : ∃ c cs, coins_with_time now eligible = c :: cs := by
    cases heligible : eligible with
    | nil => exact absurd heligible hne
    | cons a l =>
      exact ⟨_, _, rfl⟩
  have hmin : min_funding_time now eligible = (pyMin (fun p => p.2) c cs).2 := by
    unfold min_funding_time
    rw [hcw]
  have hminle : ∀ p ∈ coins_with_time now eligible,
      min_funding_time now eligible ≤ p.2 := by
    intro p hp
    rw [hcw] at hp
    obtain ⟨h1, h2⟩ := pyMin_le (fun p => p.2) c cs
    rcases List.mem_cons.mp hp with hp | hp
    · subst hp
      rw [hmin]
      exact h1
    · rw [hmin]
      exact h2 p hp
  have hmem_near : pyMin (fun p => p.2) c cs ∈ nearest_coins now eligible := by
    unfold nearest_coins
    apply List.mem_filter.mpr
    constructor
    · rw [hcw]
      rcases pyMin_eq_or_mem (fun p => p.2) c cs with h | h
      · rw [h]
        exact List.mem_cons_self c cs
      · exact List.mem_cons_of_mem c h
    · rw [hmin]
      simp
  cases hnear : nearest_coins now eligible with
  | nil =>
    rw [hnear] at hmem_near
    cases hmem_near
  | cons y ys =>
    rw [hnear] at hmem_near
    unfold find_nearest_funding_coin
    rw [hnear]
    cases ys with
    | nil =>
      refine ⟨y, by simp, List.mem_cons_self y [], hminle, ?_, ?_⟩
      · intro _
        have hy : pyMin (fun p => p.2) c cs = y := by simpa using hmem_near
        rw [← hy, hmin]
      · intro hlen
        simp at hlen
    | cons z zs =>
      refine ⟨pyMin (fun p => p.1.rate) y (z :: zs), by simp, ?_, hminle, ?_, ?_⟩
      · rcases pyMin_eq_or_mem (fun p => p.1.rate) y (z :: zs) with h | h
        · rw [h]
          exact List.mem_cons_self _ _
        · exact List.mem_cons_of_mem y h
      · intro hlen
        simp at hlen
      · intro _ p hp
        obtain ⟨h1, h2⟩ := pyMin_le (fun p => p.1.rate) y (z :: zs)
        rcases List.mem_cons.mp hp with hp | hp
        · subst hp
          exact h1
        · exact h2 p hp

/-- Concrete check of `find_nearest_funding_coin_spec`: two eligible coins
both funding in 1800 seconds; the selector returns the one with the more
negative rate. -/
theorem find_nearest_funding_coin_spec_check :
    find_nearest_funding_coin 27000 [⟨0, -4/1000, 4⟩, ⟨1, -6/1000, 8⟩]
      = some (⟨1, -6/1000, 8⟩, 1800) ∧
    (∃ r, find_nearest_funding_coin 27000 [⟨0, -4/1000, 4⟩, ⟨1, -6/1000, 8⟩]
        = some r ∧
      ∀ p ∈ nearest_coins 27000 [⟨0, -4/1000, 4⟩, ⟨1, -6/1000, 8⟩],
        r.1.rate ≤ p.1.rate) := by
  have h7 : utcHour 27000 = 7 := by
    unfold utcHour
    norm_num
    decide
  have s4 : seconds_to_next_funding 4 27000 = 1800 := by
    unfold seconds_to_next_funding next_funding_time_sec
    rw [h7]
    norm_num [next_funding_hour]
  have s8 : seconds_to_next_funding 8 27000 = 1800 := by
    unfold seconds_to_next_funding next_funding_time_sec
    rw [h7]
    norm_num [next_funding_hour]
  have hcw : coins_with_time 27000 [⟨0, -4/1000, 4⟩, ⟨1, -6/1000, 8⟩]
      = [(⟨0, -4/1000, 4⟩, 1800), (⟨1, -6/1000, 8⟩, 1800)] := by
    unfold coins_with_time
    simp [s4, s8]
  have hmin : min_funding_time 27000 [⟨0, -4/1000, 4⟩, ⟨1, -6/1000, 8⟩] = 1800 := by
    unfold min_funding_time
    rw [hcw]
    norm_num [pyMin]
  have hnear : nearest_coins 27000 [⟨0, -4/1000, 4⟩, ⟨1, -6/1000, 8⟩]
      = [(⟨0, -4/1000, 4⟩, 1800), (⟨1, -6/1000, 8⟩, 1800)] := by
    unfold nearest_coins
    rw [hcw, hmin]
    norm_num
  have heval : find_nearest_funding_coin 27000 [⟨0, -4/1000, 4⟩, ⟨1, -6/1000, 8⟩]
      = some (⟨1, -6/1000, 8⟩, 1800) := by
    unfold find_nearest_funding_coin
    rw [hnear]
    norm_num [pyMin]
  refine ⟨heval, ?_⟩
  obtain ⟨r, h1, _, _, _, h5⟩ :=
    find_nearest_funding_coin_spec 27000 [⟨0, -4/1000, 4⟩, ⟨1, -6/1000, 8⟩] (by simp)
  exact ⟨r, h1, h5 (by rw [hnear]; norm_num)⟩

/-- `position_exists` (`funding_rate_fetch.py` lines 187–192): the gateway
query returns the list of position amounts, or `none` when the call raises;
on the exception path the function returns `True`. -/
def position_exists (query : Option (List ℚ)) : Bool :=
  match query with
  | some positions => positions.any (fun amt => decide (amt ≠ 0))
  | none => true

/-- `recently_exited` (lines 194–200): `exitTs` is the `recent_exits` entry
recorded for the symbol (if any), `now` the current timestamp in seconds. -/
def recently_exited (exitTs : Option ℚ) (now : ℚ) (cooldown_minutes : ℚ) : Bool :=
  match exitTs with
  | some ts => decide ((now - ts) / 60 < cooldown_minutes)
  | none => false

/-- Per-symbol trading rules, as extracted by `get_symbol_info`. -/
structure SymbolInfo where
  min_qty : ℚ
  step_size : ℚ
  precision : ℕ
  price_precision : ℕ
deriving DecidableEq, Repr

/-- The `entry_data[symbol]` record written on a confirmed entry
(lines 280–286). -/
structure PositionEntry where
  entry_price : ℚ
  quantity : ℚ
  entry_amount : ℚ
  entry_time : ℚ
  exit_time : ℚ
deriving DecidableEq, Repr

/-- The specific cancellation reasons reported by the six entry gates. -/
inductive CancelReason where
  | ConnectivityLost
  | InvalidPrice
  | QuantityBelowMinimum
  | PositionAlreadyExists
  | BalanceBelowFloor
  | SymbolInCooldown
deriving DecidableEq, Repr

/-- The orders `place_long_position` can submit to the gateway. -/
inductive OrderKind where
  | entryMarket
  | stopMarket
  | closeMarket
deriving DecidableEq, Repr

/-- Result of an entry attempt: cancelled at a gate, or position opened
(with or without the protective stop attached). -/
inductive EntryResult where
  | canceled (reason : CancelReason)
  | opened (stopAttached : Bool)
deriving DecidableEq, Repr

/-- Everything observable about one call of `place_long_position`. -/
structure EntryOutcome where
  result : EntryResult
  orders : List OrderKind
  entryRecorded : Option PositionEntry
  unprotectedAlert : Bool
deriving DecidableEq, Repr

/-- The external state read by one call of `place_long_position`:
connectivity, ticker price, symbol rules, the open-positions query (`none`
when the gateway call raises), the freshly fetched balance, the cooldown
entry for the symbol, whether the stop-loss order succeeds, the current
time (seconds since UTC midnight) and the detected funding interval. -/
structure EntryEnv where
  apiConnected : Bool
  price : ℚ
  info : SymbolInfo
  positionsQuery : Option (List ℚ)
  balance : ℚ
  exitTs : Option ℚ
  stopLossOk : Bool
  now : ℚ
  interval : ℕ
deriving DecidableEq, Repr

/-- `place_long_position` (lines 202–311) as a function of the external
state it reads: the six gates in source order — connectivity, positive
price, sized quantity at least `min_qty`, no existing position, balance at
least the floor, symbol not in cooldown — then the market entry order, the
`entry_data` record with exit time `seconds_to_next_funding - 60`, and the
stop-loss attempt whose failure is only reported
(`Position open but no SL!`), never rolled back. -/
def place_long_position (env : EntryEnv) (capital : ℚ) (minimumBalance : ℚ) :
    EntryOutcome :=
  if env.apiConnected = false then
    ⟨.canceled .ConnectivityLost, [], none, false⟩
  else if env.price ≤ 0 then
    ⟨.canceled .InvalidPrice, [], none, false⟩
  else
    let quantity := pyRoundTo (capital / env.price) env.info.precision
    if quantity < env.info.min_qty then
      ⟨.canceled .QuantityBelowMinimum, [], none, false⟩
    else
      let amount := pyRoundTo (env.price * quantity) 2
      let exit_seconds := seconds_to_next_funding env.interval env.now - 60
      let exit_time := env.now + exit_seconds
      if position_exists env.positionsQuery then
        ⟨.canceled .PositionAlreadyExists, [], none, false⟩
      else if env.balance < minimumBalance then
        ⟨.canceled .BalanceBelowFloor, [], none, false⟩
      else if recently_exited env.exitTs env.now 5 then
        ⟨.canceled .SymbolInCooldown, [], none, false⟩
      else
        let entry : PositionEntry := ⟨env.price, quantity, amount, env.now, exit_time⟩
        if env.stopLossOk then
          ⟨.opened true, [.entryMarket, .stopMarket], some entry, false⟩
        else
          ⟨.opened false, [.entryMarket], some entry, true⟩

/-- C4: the six validation gates run in source order — connectivity,
positive price, quantity sizing, no existing position, balance floor,
cooldown — each cancellation reason occurs exactly when its gate is the
first to fail, orders are submitted only on a full pass, and every
cancellation submits no order. -/
theorem place_long_position_gate_order (env : EntryEnv) (capital minBal : ℚ) :
    ((place_long_position env capital minBal).result
        = .canceled .ConnectivityLost ↔ env.apiConnected = false) ∧
    ((place_long_position env capital minBal).result
        = .canceled .InvalidPrice ↔
      env.apiConnected = true ∧ env.price ≤ 0) ∧
    ((place_long_position env capital minBal).result
        = .canceled .QuantityBelowMinimum ↔
      env.apiConnected = true ∧ 0 < env.price ∧
        pyRoundTo (capital / env.price) env.info.precision < env.info.min_qty) ∧
    ((place_long_position env capital minBal).result
        = .canceled .PositionAlreadyExists ↔
      env.apiConnected = true ∧ 0 < env.price ∧
        env.info.min_qty ≤ pyRoundTo (capital / env.price) env.info.precision ∧
        position_exists env.positionsQuery = true) ∧
    ((place_long_position env capital minBal).result
        = .canceled .BalanceBelowFloor ↔
      env.apiConnected = true ∧ 0 < env.price ∧
        env.info.min_qty ≤ pyRoundTo (capital / env.price) env.info.precision ∧
        position_exists env.positionsQuery = false ∧ env.balance < minBal) ∧
    ((place_long_position env capital minBal).result
        = .canceled .SymbolInCooldown ↔
      env.apiConnected = true ∧ 0 < env.price ∧
        env.info.min_qty ≤ pyRoundTo (capital / env.price) env.info.precision ∧
        position_exists env.positionsQuery = false ∧ minBal ≤ env.balance ∧
        recently_exited env.exitTs env.now 5 = true) ∧
    ((∃ b, (place_long_position env capital minBal).result = .opened b) ↔
      env.apiConnected = true ∧ 0 < env.price ∧
        env.info.min_qty ≤ pyRoundTo (capital / env.price) env.info.precision ∧
        position_exists env.positionsQuery = false ∧ minBal ≤ env.balance ∧
        recently_exited env.exitTs env.now 5 = false) ∧
    (∀ r, (place_long_position env capital minBal).result = .canceled r →
      (place_long_position env capital minBal).orders = []) ∧
    (OrderKind.entryMarket ∈ (place_long_position env capital minBal).orders ↔
      ∃ b, (place_long_position env capital minBal).result = .opened b) := by
  simp only [place_long_position]
  split_ifs with h1 h2 h3 h4 h5 h6 h7 <;>
    simp_all [not_le, not_lt, le_of_lt]

/-- Concrete check of `place_long_position_gate_order` on the specified
scenario: capital 100, price 37.777, quantity precision 3 sizes the position
at round(100/37.777, 3) = 2.647, which passes the sizing gate for
min_qty = 0.01 but cancels with `QuantityBelowMinimum` for min_qty = 3. -/
theorem place_long_position_gate_order_check :
    pyRoundTo (100 / (37777/1000)) 3 = 2647/1000 ∧
    (place_long_position
        ⟨true, 37777/1000, ⟨3, 1/1000, 3, 2⟩, some [], 100, none, true, 27000, 8⟩
        100 10).result = .canceled .QuantityBelowMinimum ∧
    ¬ (place_long_position
        ⟨true, 37777/1000, ⟨1/100, 1/1000, 3, 2⟩, some [], 100, none, true, 27000, 8⟩
        100 10).result = .canceled .QuantityBelowMinimum := by
  have hq : pyRoundTo (100 / (37777/1000)) 3 = 2647/1000 := by
    unfold pyRoundTo pyRound
    rw [Int.fract, round_eq]
    norm_num
  refine ⟨hq, ?_, ?_⟩
  · apply (place_long_position_gate_order
      ⟨true, 37777/1000, ⟨3, 1/1000, 3, 2⟩, some [], 100, none, true, 27000, 8⟩
      100 10).2.2.1.mpr
    refine ⟨rfl, by norm_num, ?_⟩
    show pyRoundTo (100 / (37777/1000)) 3 < 3
    rw [hq]
    norm_num
  · intro heq
    have h3 := (place_long_position_gate_order
      ⟨true, 37777/1000, ⟨1/100, 1/1000, 3, 2⟩, some [], 100, none, true, 27000, 8⟩
      100 10).2.2.1.mp heq
    have hlt : pyRoundTo (100 / (37777/1000)) 3 < 1/100 := h3.2.2
    rw [hq] at hlt
    norm_num at hlt

/-- C5: when every gate passes, the entry order fills and the protective
stop-loss order fails, the entry is not rolled back — the result is a
position open without stop, the `entry_data` record stays in place, the
distinct `Position open but no SL!` alert is raised, and no closing or
retried order is submitted. -/
theorem stop_loss_failure_not_rolled_back (env : EntryEnv) (capital minBal : ℚ)
    (hconn : env.apiConnected = true) (hp : 0 < env.price)
    (hq : env.info.min_qty ≤ pyRoundTo (capital / env.price) env.info.precision)
    (hpos : position_exists env.positionsQuery = false)
    (hbal : minBal ≤ env.balance)
    (hcd : recently_exited env.exitTs env.now 5 = false)
    (hsl : env.stopLossOk = false) :
    (place_long_position env capital minBal).result = .opened false ∧
    (∃ e, (place_long_position env capital minBal).entryRecorded = some e) ∧
    (place_long_position env capital minBal).unprotectedAlert = true ∧
    (place_long_position env capital minBal).orders = [.entryMarket] ∧
    OrderKind.closeMarket ∉ (place_long_position env capital minBal).orders := by
  simp [place_long_position, hconn, hpos, hsl, hcd, not_lt.mpr hq,
    not_lt.mpr hbal, not_le.mpr hp]

/-- Concrete check of `stop_loss_failure_not_rolled_back` at price 100 and
capital 100 with a failing stop order. -/
theorem stop_loss_failure_not_rolled_back_check :
    (place_long_position
        ⟨true, 100, ⟨1/100, 1/1000, 3, 2⟩, some [], 100, none, false, 27000, 8⟩
        100 10).result = .opened false ∧
    (∃ e, (place_long_position
        ⟨true, 100, ⟨1/100, 1/1000, 3, 2⟩, some [], 100, none, false, 27000, 8⟩
        100 10).entryRecorded = some e) ∧
    (place_long_position
        ⟨true, 100, ⟨1/100, 1/1000, 3, 2⟩, some [], 100, none, false, 27000, 8⟩
        100 10).unprotectedAlert = true ∧
    (place_long_position
        ⟨true, 100, ⟨1/100, 1/1000, 3, 2⟩, some [], 100, none, false, 27000, 8⟩
        100 10).orders = [.entryMarket] ∧
    OrderKind.closeMarket ∉ (place_long_position
        ⟨true, 100, ⟨1/100, 1/1000, 3, 2⟩, some [], 100, none, false, 27000, 8⟩
        100 10).orders := by
  apply stop_loss_failure_not_rolled_back
  · rfl
  · norm_num
  · show (1/100 : ℚ) ≤ pyRoundTo (100 / 100) 3
    unfold pyRoundTo pyRound
    rw [Int.fract, round_eq]
    norm_num
  · rfl
  · norm_num
  · rfl
  · rfl

/-- The two branches of the main loop body (`run_bot`, line 406): a cycle
either handles an existing position or scans for a new entry, according to
`position_exists`. -/
inductive CycleBranch where
  | positionHandling
  | scanning
deriving DecidableEq, Repr

/-- The branch `run_bot` takes for a cycle, as a function of the
open-positions query (`none` when the gateway call raises). -/
def run_bot_cycle_branch (positionsQuery : Option (List ℚ)) : CycleBranch :=
  if position_exists positionsQuery then .positionHandling else .scanning

/-- C10: the open-positions check fails closed — a raising gateway query
makes `position_exists` return true, the main loop then treats the cycle as
having an open position, and an entry attempt reaching the position gate
with an unknown position status cancels with `PositionAlreadyExists` and
submits nothing. -/
theorem position_check_fails_closed :
    position_exists none = true ∧
    run_bot_cycle_branch none = .positionHandling ∧
    (∀ (env : EntryEnv) (capital minBal : ℚ), env.positionsQuery = none →
      env.apiConnected = true → 0 < env.price →
      env.info.min_qty ≤ pyRoundTo (capital / env.price) env.info.precision →
      (place_long_position env capital minBal).result
          = .canceled .PositionAlreadyExists ∧
      (place_long_position env capital minBal).orders = []) := by
  refine ⟨rfl, rfl, ?_⟩
  intro env capital minBal hnone hconn hp hq
  simp [place_long_position, hconn, hnone, position_exists,
    not_lt.mpr hq, not_le.mpr hp]

/-- Concrete check of `position_check_fails_closed`: a raising query plus
otherwise passing gates cancels with `PositionAlreadyExists`. -/
theorem position_check_fails_closed_check :
    (place_long_position
        ⟨true, 100, ⟨1/100, 1/1000, 3, 2⟩, none, 100, none, true, 27000, 8⟩
        100 10).result = .canceled .PositionAlreadyExists ∧
    (place_long_position
        ⟨true, 100, ⟨1/100, 1/1000, 3, 2⟩, none, 100, none, true, 27000, 8⟩
        100 10).orders = [] := by
  apply position_check_fails_closed.2.2
  · rfl
  · rfl
  · norm_num
  · show (1/100 : ℚ) ≤ pyRoundTo (100 / 100) 3
    unfold pyRoundTo pyRound
    rw [Int.fract, round_eq]
    norm_num

/-- The number of open positions the gateway reports: entries of the
position list with a nonzero amount. -/
def open_position_count (s : List ℚ) : ℕ :=
  s.countP (fun a => decide (a ≠ 0))

/-- One step of the single-threaded bot, acting on the position
list (amounts of the LONG positions): an entry submits a positive-quantity
market buy only after `position_exists` reported no position (lines
256–278); `square_off_all` closes every position with positive amount
(lines 313–350); otherwise the loop sleeps and the list is unchanged. -/
inductive BotStep : List ℚ → List ℚ → Prop where
  | enter (q : ℚ) (s : List ℚ) (hq : 0 < q)
      (hcheck : position_exists (some s) = false) : BotStep s (q :: s)
  | squareOff (s : List ℚ) : BotStep s (s.filter (fun a => decide (¬ 0 < a)))
  | wait (s : List ℚ) : BotStep s s

/-- C1: every position list reachable from the empty start has at most one
open position, and whenever the open-positions check reports an existing
position an entry attempt submits no order — with the specific reason
`PositionAlreadyExists` once the attempt reaches the position gate. -/
theorem single_open_position (s : List ℚ)
    (hreach : Relation.ReflTransGen BotStep [] s) :
    open_position_count s ≤ 1 ∧
    (∀ (env : EntryEnv) (capital minBal : ℚ),
      position_exists env.positionsQuery = true →
      (place_long_position env capital minBal).orders = [] ∧
      (env.apiConnected = true → 0 < env.price →
        env.info.min_qty ≤ pyRoundTo (capital / env.price) env.info.precision →
        (place_long_position env capital minBal).result
          = .canceled .PositionAlreadyExists)) := by
  constructor
  · induction hreach with
    | refl => simp [open_position_count]
    | tail hr step ih =>
      rename_i mid _
      cases step with
      | enter q s1 hq hcheck =>
        have hall : ∀ a ∈ mid, a = 0 := by
          intro a ha
          have := List.any_eq_false.mp hcheck a ha
          simpa using this
        have hzero : open_position_count mid = 0 := by
          apply List.countP_eq_zero.mpr
          intro a ha
          simp [hall a ha]
        unfold open_position_count at hzero ⊢
        rw [List.countP_cons]
        simp [hzero, ne_of_gt hq]
        exact hall
      | squareOff =>
        calc open_position_count (mid.filter (fun a => decide (¬ 0 < a)))
            ≤ open_position_count mid := List.Sublist.countP_le _ (List.filter_sublist mid)
          _ ≤ 1 := ih
      | wait => exact ih
  · intro env capital minBal hpos
    constructor
    · simp only [place_long_position]
      split_ifs <;> simp_all
    · intro hconn hp hq
      simp [place_long_position, hconn, hpos, not_lt.mpr hq, not_le.mpr hp]

/-- Concrete check of `single_open_position`: after one entry from the empty
state there is exactly one open position, and an attempt made while the
check reports that position submits no order. -/
theorem single_open_position_check :
    open_position_count [5] ≤ 1 ∧
    (place_long_position
        ⟨true, 100, ⟨1/100, 1/1000, 3, 2⟩, some [5], 100, none, true, 27000, 8⟩
        100 10).orders = [] := by
  have h := single_open_position [5]
    (Relation.ReflTransGen.single (BotStep.enter 5 [] (by norm_num) rfl))
  exact ⟨h.1, (h.2 _ 100 10 (by decide)).1⟩

/-- C9: with `recent_exits[symbol] = t0` recorded when the position closed
(`square_off_all`, line 376), the cooldown gate rejects a re-entry attempt
strictly before `t0 + 300` seconds and allows it from `t0 + 300` onward. -/
theorem cooldown_boundary (t0 now : ℚ) :
    (now < t0 + 300 → recently_exited (some t0) now 5 = true) ∧
    (t0 + 300 ≤ now → recently_exited (some t0) now 5 = false) := by
  constructor
  · intro h
    have hlt : (now - t0) / 60 < 5 := by
      rw [div_lt_iff₀ (by norm_num : (0:ℚ) < 60)]
      linarith
    simp [recently_exited, hlt]
  · intro h
    have hge : ¬ (now - t0) / 60 < 5 := by
      rw [not_lt, le_div_iff₀ (by norm_num : (0:ℚ) < 60)]
      linarith
    simp [recently_exited, hge]

/-- Concrete check of `cooldown_boundary`: one second before the 5-minute
boundary the attempt is rejected, at the boundary it is allowed. -/
theorem cooldown_boundary_check :
    recently_exited (some 0) 299 5 = true ∧
    recently_exited (some 0) 300 5 = false :=
  ⟨(cooldown_boundary 0 299).1 (by norm_num),
   (cooldown_boundary 0 300).2 (by norm_num)⟩

/-- What one pass of the open-position branch of `run_bot` does for a LONG
position with positive amount (lines 408–432). -/
inductive OpenAction where
  | closeNow
  | sleepRemaining (seconds : ℚ)
  | sleepFallback
deriving DecidableEq, Repr

/-- The exit handling of `run_bot` (lines 412–432) for one open position:
when `entry_data` holds an `exit_time` for the symbol, the loop closes once
that time has passed and otherwise sleeps towards it; only when no
`exit_time` is recorded does it consult the funding clock and close inside
the 60-second close window. -/
def handle_open_position (exitTimeRec : Option ℚ) (now : ℚ)
    (secsToFunding : ℚ) : OpenAction :=
  match exitTimeRec with
  | some exit_time =>
    if exit_time - now ≤ 0 then .closeNow
    else .sleepRemaining (min 60 (exit_time - now))
  | none =>
    if 0 < secsToFunding ∧ secsToFunding ≤ 60 then .closeNow else .sleepFallback

/-- C2 counterexample: a position with a recorded exit timestamp 100 seconds
away is inside the close window (30 seconds to settlement, a fired
close-window trigger), yet the loop sleeps instead of closing — the two
triggers are not combined by whichever fires first. -/
theorem exit_trigger_counterexample :
    (0 : ℚ) < 30 ∧ (30 : ℚ) ≤ 60 ∧
    handle_open_position (some 1100) 1000 30 ≠ OpenAction.closeNow := by
  refine ⟨by norm_num, by norm_num, ?_⟩
  have hred : handle_open_position (some 1100) 1000 30
      = if (1100:ℚ) - 1000 ≤ 0 then OpenAction.closeNow
        else OpenAction.sleepRemaining (min 60 ((1100:ℚ) - 1000)) := rfl
  rw [hred, if_neg (by norm_num : ¬ (1100:ℚ) - 1000 ≤ 0)]
  exact fun hc => OpenAction.noConfusion hc

/-- C2 as the code has it: a recorded `plannedExitTimestamp` is the sole
trigger for its position — close exactly when it is reached, the close
window being ignored — and the close-window trigger
`0 < secondsToFunding ≤ 60` fires only for a position with no recorded exit
time; the timestamp recorded at entry is settlement minus 60 seconds. -/
theorem exit_trigger_exclusive (et now stf : ℚ) :
    (handle_open_position (some et) now stf = .closeNow ↔ et ≤ now) ∧
    (handle_open_position none now stf = .closeNow ↔ 0 < stf ∧ stf ≤ 60) ∧
    (∀ (env : EntryEnv) (capital minBal : ℚ) (e : PositionEntry),
      (place_long_position env capital minBal).entryRecorded = some e →
      e.exit_time = env.now + (seconds_to_next_funding env.interval env.now - 60)) := by
  have hred1 : handle_open_position (some et) now stf
      = if et - now ≤ 0 then OpenAction.closeNow
        else OpenAction.sleepRemaining (min 60 (et - now)) := rfl
  have hred2 : handle_open_position none now stf
      = if 0 < stf ∧ stf ≤ 60 then OpenAction.closeNow
        else OpenAction.sleepFallback := rfl
  refine ⟨?_, ?_, ?_⟩
  · rw [hred1]
    constructor
    · intro hcl
      by_cases hle : et - now ≤ 0
      · linarith
      · rw [if_neg hle] at hcl
        exact OpenAction.noConfusion hcl
    · intro hle
      rw [if_pos (by linarith)]
  · rw [hred2]
    split_ifs with h
    · exact iff_of_true rfl h
    · simp [h]
  · intro env capital minBal e he
    simp only [place_long_position] at he
    split_ifs at he <;> simp at he <;> rw [← he]

/-- Concrete check of `exit_trigger_exclusive`: a reached exit timestamp
closes, and a close window with no recorded exit time closes. -/
theorem exit_trigger_exclusive_check :
    handle_open_position (some 900) 1000 30 = OpenAction.closeNow ∧
    handle_open_position none 1000 30 = OpenAction.closeNow :=
  ⟨(exit_trigger_exclusive 900 1000 30).1.mpr (by norm_num),
   (exit_trigger_exclusive 900 1000 30).2.1.mpr (by norm_num)⟩

/-- The pick from the freshly fetched 45–50-minute window during the
50-minute re-scan (`run_bot` lines 510–517): the coins sorted by rate and
the first — most negative — taken; `none` when the window is empty. Each
pair is a symbol with its fresh rate. -/
def best_in_window (freshWindow : List (ℕ × ℚ)) : Option ℕ :=
  match freshWindow with
  | [] => none
  | x :: xs => some (pyMin (fun p => p.2) x xs).1

/-- The entry decision of the scan branch of `run_bot` (lines 468–544) once
a nearest eligible coin is known: nothing happens at 60 minutes or more or
under a low balance; above the 50-minute mark the loop waits, re-fetches
rates and enters the best coin of the fresh 45–50-minute window; already
inside the 45–50-minute window it waits to the 45-minute mark and enters
the coin selected by the original scan, fetching nothing anew. `time_left`
is the seconds to funding of the selected coin at scan time, `staleSym` that
coin, and `freshWindow` what a re-fetch at the 50-minute mark would
yield. -/
def scan_entry_decision (time_left : ℚ) (staleSym : ℕ)
    (balance minimumBalance : ℚ) (freshWindow : List (ℕ × ℚ)) : Option ℕ :=
  if time_left < 3600 then
    if balance < minimumBalance then none
    else if 3000 < time_left then best_in_window freshWindow
    else if 2700 ≤ time_left ∧ time_left ≤ 3000 then some staleSym
    else none
  else none

/-- C3 counterexample: a scan that lands directly in the 45–50-minute window
(2800 seconds left) submits the originally selected symbol 0 for every
possible fresh state — here one where the fresh best is symbol 1 — so this
entry path never re-runs selection against freshly fetched rates. -/
theorem freshness_counterexample :
    scan_entry_decision 2800 0 100 10 [(1, -9/1000)] = some 0 ∧
    best_in_window [(1, -9/1000)] = some 1 ∧ (0 : ℕ) ≠ 1 := by
  refine ⟨?_, rfl, by norm_num⟩
  unfold scan_entry_decision
  rw [if_pos (by norm_num : (2800:ℚ) < 3600),
    if_neg (by norm_num : ¬ (100:ℚ) < 10),
    if_neg (by norm_num : ¬ (3000:ℚ) < 2800),
    if_pos (by norm_num : (2700:ℚ) ≤ 2800 ∧ (2800:ℚ) ≤ 3000)]

/-- C3 as the code has it: only the path that starts above the 50-minute
mark re-runs selection, entering the most negative coin of the freshly
fetched 45–50-minute window; the path that starts inside the 45–50-minute
window enters the stale selection whatever the fresh rates would say. -/
theorem scan_entry_paths (tl : ℚ) (staleSym : ℕ) (bal mb : ℚ)
    (fw : List (ℕ × ℚ)) :
    (3000 < tl → tl < 3600 → ¬ bal < mb →
      scan_entry_decision tl staleSym bal mb fw = best_in_window fw) ∧
    (2700 ≤ tl → tl ≤ 3000 → ¬ bal < mb →
      scan_entry_decision tl staleSym bal mb fw = some staleSym) ∧
    (∀ x xs, fw = x :: xs →
      ∃ p, p ∈ fw ∧ best_in_window fw = some p.1 ∧ ∀ y ∈ fw, p.2 ≤ y.2) := by
  refine ⟨?_, ?_, ?_⟩
  · intro h1 h2 h3
    unfold scan_entry_decision
    rw [if_pos h2, if_neg h3, if_pos h1]
  · intro h1 h2 h3
    have h4 : ¬ 3000 < tl := not_lt.mpr h2
    have h5 : tl < 3600 := by linarith
    unfold scan_entry_decision
    rw [if_pos h5, if_neg h3, if_neg h4, if_pos ⟨h1, h2⟩]
  · intro x xs hfw
    subst hfw
    refine ⟨pyMin (fun p => p.2) x xs, ?_, rfl, ?_⟩
    · rcases pyMin_eq_or_mem (fun p => p.2) x xs with h | h
      · rw [h]
        exact List.mem_cons_self _ _
      · exact List.mem_cons_of_mem x h
    · intro y hy
      obtain ⟨h1, h2⟩ := pyMin_le (fun p => p.2) x xs
      rcases List.mem_cons.mp hy with hy | hy
      · subst hy
        exact h1
      · exact h2 y hy

/-- Concrete check of `scan_entry_paths`: above the 50-minute mark the best coin
of the fresh window is entered; inside the 45–50-minute window the stale
selection is entered. -/
theorem scan_entry_paths_check :
    scan_entry_decision 3100 0 100 10 [(2, -8/1000)] = best_in_window [(2, -8/1000)] ∧
    scan_entry_decision 2800 7 100 10 [(2, -8/1000)] = some 7 :=
  ⟨(scan_entry_paths 3100 0 100 10 [(2, -8/1000)]).1
      (by norm_num) (by norm_num) (by norm_num),
   (scan_entry_paths 2800 7 100 10 [(2, -8/1000)]).2.1
      (by norm_num) (by norm_num) (by norm_num)⟩

/-- The P&L computation of `square_off_all` (`funding_rate_fetch.py` lines
352–354): exit notional rounded to cents, realized P&L as the rounded
difference, and the percentage — zero unless the entry notional is
positive. Returns (pnl_usdt, pnl_percent). -/
def square_off_pnl (exit_price amt entry_amount : ℚ) : ℚ × ℚ :=
  let exit_amount := pyRoundTo (exit_price * amt) 2
  let pnl_usdt := pyRoundTo (exit_amount - entry_amount) 2
  let pnl_percent :=
    if entry_amount > 0 then pyRoundTo (pnl_usdt / entry_amount * 100) 2 else 0
  (pnl_usdt, pnl_percent)

/-- `pyRoundTo` at two decimals is the identity on whole numbers of
hundredths. -/
theorem pyRoundTo_two_cents (z : ℤ) : pyRoundTo ((z : ℚ) / 100) 2 = (z : ℚ) / 100 := by
  unfold pyRoundTo
  have h : ((z : ℚ) / 100) * 10 ^ 2 = (z : ℚ) := by
    ring
  rw [h, pyRound_intCast]
  norm_num

/-- C8 counterexample: closing 2.647 units at price 37.777 against an entry
notional of 100 yields a computed realized P&L of 0, while
exitPrice × quantity − entryNotional is −0.004281 ≠ 0 — the code rounds the
exit notional and the P&L to cents, which the claimed exact formula does
not. -/
theorem pnl_rounding_counterexample :
    (square_off_pnl (37777/1000) (2647/1000) 100).1 = 0 ∧
    (37777/1000 : ℚ) * (2647/1000) - 100 ≠ 0 := by
  constructor
  · have e1 : pyRoundTo ((37777/1000 : ℚ) * (2647/1000)) 2 = 100 := by
      unfold pyRoundTo pyRound
      rw [Int.fract, round_eq]
      norm_num
    have e2 : pyRoundTo ((100 : ℚ) - 100) 2 = 0 := by
      have : ((100 : ℚ) - 100) = (((0 : ℤ) : ℚ) / 100) := by norm_num
      rw [this, pyRoundTo_two_cents]
      norm_num
    simp only [square_off_pnl]
    rw [e1, e2]
  · norm_num

/-- C8 as the code has it: the exit notional is exitPrice × quantity rounded
to 2 decimals; the realized P&L is that minus the entry notional (the outer
rounding being the identity whenever the entry notional is a whole number
of cents); the percentage is realizedPnL / entryNotional × 100 rounded to
2 decimals when the entry notional is positive and 0 otherwise; entry
notional 100 against exit notional 105 gives P&L 5 and 5.00 percent. -/
theorem square_off_pnl_spec (exit_price amt entry_amount : ℚ) :
    (∀ k : ℤ, entry_amount = (k : ℚ) / 100 →
      (square_off_pnl exit_price amt entry_amount).1
        = pyRoundTo (exit_price * amt) 2 - entry_amount) ∧
    (0 < entry_amount →
      (square_off_pnl exit_price amt entry_amount).2
        = pyRoundTo
            ((square_off_pnl exit_price amt entry_amount).1 / entry_amount * 100) 2) ∧
    (¬ 0 < entry_amount → (square_off_pnl exit_price amt entry_amount).2 = 0) ∧
    square_off_pnl 105 1 100 = (5, 5) := by
  refine ⟨?_, ?_, ?_, ?_⟩
  · intro k hk
    have h1 : pyRoundTo (exit_price * amt) 2
        = ((pyRound (exit_price * amt * 10 ^ 2) : ℤ) : ℚ) / 100 := by
      unfold pyRoundTo
      norm_num
    have h2 : pyRoundTo (exit_price * amt) 2 - entry_amount
        = (((pyRound (exit_price * amt * 10 ^ 2) - k : ℤ) : ℚ) / 100) := by
      rw [h1, hk]
      push_cast
      ring
    simp only [square_off_pnl]
    rw [h2, pyRoundTo_two_cents, ← h2]
  · intro h
    simp only [square_off_pnl]
    rw [if_pos h]
  · intro h
    simp only [square_off_pnl]
    rw [if_neg h]
  · have e1 : pyRoundTo ((105 : ℚ) * 1) 2 = 105 := by
      have : ((105 : ℚ) * 1) = (((10500 : ℤ) : ℚ) / 100) := by norm_num
      rw [this, pyRoundTo_two_cents]
      norm_num
    have e2 : pyRoundTo ((105 : ℚ) - 100) 2 = 5 := by
      have : ((105 : ℚ) - 100) = (((500 : ℤ) : ℚ) / 100) := by norm_num
      rw [this, pyRoundTo_two_cents]
      norm_num
    have e3 : pyRoundTo ((5 : ℚ) / 100 * 100) 2 = 5 := by
      have : ((5 : ℚ) / 100 * 100) = (((500 : ℤ) : ℚ) / 100) := by norm_num
      rw [this, pyRoundTo_two_cents]
      norm_num
    simp only [square_off_pnl]
    rw [e1, e2, if_pos (by norm_num : (100:ℚ) > 0), e3]

/-- Concrete check of `square_off_pnl_spec`: the cents form of the realized
P&L, the worked example, and the zero-entry guard. -/
theorem square_off_pnl_spec_check :
    (square_off_pnl 105 1 100).1 = pyRoundTo (105 * 1) 2 - 100 ∧
    square_off_pnl 105 1 100 = (5, 5) ∧
    (square_off_pnl 105 1 0).2 = 0 :=
  ⟨(square_off_pnl_spec 105 1 100).1 10000 (by norm_num),
   (square_off_pnl_spec 105 1 100).2.2.2,
   (square_off_pnl_spec 105 1 0).2.2.1 (by norm_num)⟩
